import Mathlib

set_option maxRecDepth 8000

/-!
Shallow embedding of `go/scraping/cmd/metar_scraper/main.go` (METAR scraper):
fetch → validate headers → parse CSV lines → upsert into the store inside a
single transaction.  Pure parsing code is translated directly; the I/O
boundary (HTTP, filesystem, database exec) is modelled by explicit oracle
environments, and the database table by a list of rows.
-/

/-! ## Timestamps: Go `time.Parse(time.RFC3339, s)` -/

/-- An absolute instant: seconds since the Unix epoch (UTC) plus nanoseconds.
This is the value `time.Parse` produces and the store keys on. -/
structure Timestamp where
  sec : Int
  nsec : Nat
deriving DecidableEq, Repr

def isLeapYear (y : Nat) : Bool :=
  (y % 4 = 0 && y % 100 ≠ 0) || y % 400 = 0

def daysInMonth (y m : Nat) : Nat :=
  if m = 1 then 31
  else if m = 2 then (if isLeapYear y then 29 else 28)
  else if m = 3 then 31
  else if m = 4 then 30
  else if m = 5 then 31
  else if m = 6 then 30
  else if m = 7 then 31
  else if m = 8 then 31
  else if m = 9 then 30
  else if m = 10 then 31
  else if m = 11 then 30
  else 31

/-- Days since 1970-01-01 of the civil date (y, m, d) (proleptic Gregorian). -/
def daysFromCivil (y m d : Nat) : Int :=
  let yi : Int := if m ≤ 2 then (y : Int) - 1 else (y : Int)
  let era : Int := yi.ediv 400
  let yoe : Int := yi - era * 400
  let mp : Nat := (m + 9) % 12
  let doy : Int := ((153 * mp + 2) / 5 : Nat) + (d : Int) - 1
  let doe : Int := yoe * 365 + yoe.ediv 4 - yoe.ediv 100 + doy
  era * 146097 + doe - 719468

/-- Read exactly `n` decimal digits, accumulating their value. -/
def readFixedDigits : Nat → Nat → List Char → Option (Nat × List Char)
  | 0, acc, cs => some (acc, cs)
  | _ + 1, _, [] => none
  | n + 1, acc, c :: cs =>
    if c.isDigit then readFixedDigits n (acc * 10 + (c.toNat - 48)) cs else none

def expectChar (c : Char) : List Char → Option (List Char)
  | [] => none
  | x :: cs => if x = c then some cs else none

/-- `getnum(value, fixed=false)`: one or two decimal digits (the hour chunk
`15` of the layout is not zero-padded, so Go accepts a one-digit hour). -/
def readNum1or2 : List Char → Option (Nat × List Char)
  | [] => none
  | c1 :: cs =>
    if c1.isDigit then
      match cs with
      | c2 :: cs2 =>
        if c2.isDigit then some ((c1.toNat - 48) * 10 + (c2.toNat - 48), cs2)
        else some (c1.toNat - 48, c2 :: cs2)
      | [] => some (c1.toNat - 48, [])
    else none

/-- Optional fractional seconds, Go's special case for a layout without a
fraction chunk: a period or, since Go 1.17, a comma, followed by at least one
digit; all digits are consumed and the first nine kept as nanoseconds. -/
def readFrac : List Char → Option (Nat × List Char)
  | [] => some (0, [])
  | c :: cs =>
    if c = '.' || c = ',' then
      let ds := cs.takeWhile Char.isDigit
      -- a separator with no digit is left to the zone parser, which then
      -- fails on it: rejection either way
      if ds = [] then none
      else
        let digits9 := ds.take 9
        let v := digits9.foldl (fun a d => a * 10 + (d.toNat - 48)) 0
        some (v * 10 ^ (9 - digits9.length), cs.drop ds.length)
    else some (0, c :: cs)

/-- Zone designator chunk `Z07:00`: `Z` or `±hh:mm`, returning the offset
east of UTC in minutes.  Go's layout parser performs no range check on the
numeric offset — `+24:00` or `+99:99` are accepted. -/
def readOffset : List Char → Option (Int × List Char)
  | 'Z' :: cs => some (0, cs)
  | '+' :: cs => do
    let (h, cs) ← readFixedDigits 2 0 cs
    let cs ← expectChar ':' cs
    let (m, cs) ← readFixedDigits 2 0 cs
    some (((h * 60 + m : Nat) : Int), cs)
  | '-' :: cs => do
    let (h, cs) ← readFixedDigits 2 0 cs
    let cs ← expectChar ':' cs
    let (m, cs) ← readFixedDigits 2 0 cs
    some (-((h * 60 + m : Nat) : Int), cs)
  | _ => none

/-- Go `time.Parse(time.RFC3339, s)` via the general layout path for
`2006-01-02T15:04:05Z07:00` (newer Go tries a strict fast path first but
falls back to this on failure, so this path decides acceptance): four-digit
year, fixed two-digit month, day, minute and second, a one- or two-digit
hour, optional fractional seconds after `.` or `,`, and a `Z` or `±hh:mm`
zone designator with no range check on the offset; month (1–12), day
(calendar-aware), hour (0–23), minute and second (0–59) are range-checked
and the input must be fully consumed. -/
def parseRFC3339 (s : String) : Option Timestamp := do
  let cs := s.data
  let (y, cs) ← readFixedDigits 4 0 cs
  let cs ← expectChar '-' cs
  let (mo, cs) ← readFixedDigits 2 0 cs
  let cs ← expectChar '-' cs
  let (d, cs) ← readFixedDigits 2 0 cs
  let cs ← expectChar 'T' cs
  let (hh, cs) ← readNum1or2 cs
  let cs ← expectChar ':' cs
  let (mi, cs) ← readFixedDigits 2 0 cs
  let cs ← expectChar ':' cs
  let (ss, cs) ← readFixedDigits 2 0 cs
  let (ns, cs) ← readFrac cs
  let (off, cs) ← readOffset cs
  if cs = [] && 1 ≤ mo && mo ≤ 12 && 1 ≤ d && d ≤ daysInMonth y mo
      && hh ≤ 23 && mi ≤ 59 && ss ≤ 59 then
    some ⟨daysFromCivil y mo d * 86400 + ((hh * 3600 + mi * 60 + ss : Nat) : Int) - off * 60, ns⟩
  else none

/-- Spec-side fractional seconds: RFC 3339's `time-secfrac` allows only a
period as separator. -/
def readFracStrict : List Char → Option (Nat × List Char)
  | '.' :: cs =>
    let ds := cs.takeWhile Char.isDigit
    if ds = [] then none
    else
      let digits9 := ds.take 9
      let v := digits9.foldl (fun a d => a * 10 + (d.toNat - 48)) 0
      some (v * 10 ^ (9 - digits9.length), cs.drop ds.length)
  | cs => some (0, cs)

/-- Spec-side zone designator: RFC 3339's `time-numoffset` restricts the
offset hour to 00–23 and the offset minute to 00–59. -/
def readOffsetStrict : List Char → Option (Int × List Char)
  | 'Z' :: cs => some (0, cs)
  | '+' :: cs => do
    let (h, cs) ← readFixedDigits 2 0 cs
    let cs ← expectChar ':' cs
    let (m, cs) ← readFixedDigits 2 0 cs
    if h ≤ 23 && m ≤ 59 then some (((h * 60 + m : Nat) : Int), cs) else none
  | '-' :: cs => do
    let (h, cs) ← readFixedDigits 2 0 cs
    let cs ← expectChar ':' cs
    let (m, cs) ← readFixedDigits 2 0 cs
    if h ≤ 23 && m ≤ 59 then some (-((h * 60 + m : Nat) : Int), cs) else none
  | _ => none

/-- Spec-side definition, following the claim's words: validity under the
strict RFC 3339 grammar — all time fields two digits, `.` as the only
fractional separator, and the numeric zone offset within 00–23 hours and
00–59 minutes, with the same calendar range checks.  Kept separate from
`parseRFC3339` (what the code accepts) so the two can be compared. -/
def strictRFC3339 (s : String) : Bool :=
  (do
    let cs := s.data
    let (y, cs) ← readFixedDigits 4 0 cs
    let cs ← expectChar '-' cs
    let (mo, cs) ← readFixedDigits 2 0 cs
    let cs ← expectChar '-' cs
    let (d, cs) ← readFixedDigits 2 0 cs
    let cs ← expectChar 'T' cs
    let (hh, cs) ← readFixedDigits 2 0 cs
    let cs ← expectChar ':' cs
    let (mi, cs) ← readFixedDigits 2 0 cs
    let cs ← expectChar ':' cs
    let (ss, cs) ← readFixedDigits 2 0 cs
    let (_, cs) ← readFracStrict cs
    let (_, cs) ← readOffsetStrict cs
    if cs = [] && 1 ≤ mo && mo ≤ 12 && 1 ≤ d && d ≤ daysInMonth y mo
        && hh ≤ 23 && mi ≤ 59 && ss ≤ 59 then
      some ()
    else none : Option Unit).isSome

/-! ## CSV: `csv.NewReader(strings.NewReader(text)).Read()` on a single line
(default settings: comma separator, strict quotes, no trimming). -/

inductive CsvError where
  /-- A blank line is skipped by Go's reader; with nothing after it, `Read`
  returns `io.EOF`. -/
  | emptyLine
  /-- `ErrBareQuote`: a `"` inside a non-quoted field. -/
  | bareQuote
  /-- `ErrQuote`: unterminated quote, or extra characters after a closing quote. -/
  | quoteErr
deriving DecidableEq, Repr

inductive CState where
  | fieldStart
  | unquoted
  | quoted
  | postQuote
deriving DecidableEq, Repr

def csvRun (st : CState) (field : List Char) (fields : List String) :
    List Char → Except CsvError (List String)
  | [] =>
    match st with
    | .quoted => .error .quoteErr
    | _ => .ok (fields ++ [String.mk field])
  | c :: cs =>
    match st with
    | .fieldStart =>
      if c = '"' then csvRun .quoted [] fields cs
      else if c = ',' then csvRun .fieldStart [] (fields ++ [""]) cs
      else csvRun .unquoted [c] fields cs
    | .unquoted =>
      if c = '"' then .error .bareQuote
      else if c = ',' then csvRun .fieldStart [] (fields ++ [String.mk field]) cs
      else csvRun .unquoted (field ++ [c]) fields cs
    | .quoted =>
      if c = '"' then csvRun .postQuote field fields cs
      else csvRun .quoted (field ++ [c]) fields cs
    | .postQuote =>
      if c = '"' then csvRun .quoted (field ++ ['"']) fields cs
      else if c = ',' then csvRun .fieldStart [] (fields ++ [String.mk field]) cs
      else .error .quoteErr

def parseCSVLine (s : String) : Except CsvError (List String) :=
  if s.data = [] then .error .emptyLine
  else csvRun .fieldStart [] [] s.data

/-! ## The store: the `metars` table, rows keyed by (station, time). -/

structure Row where
  station : String
  time : Timestamp
  csv_parts : List String
deriving DecidableEq, Repr

abbrev Store := List Row

abbrev RKey := String × Timestamp

def rowKey (r : Row) : RKey := (r.station, r.time)

def hasKey (s : Store) (k : RKey) : Bool :=
  s.any fun x => decide (rowKey x = k)

def setParts (parts : List String) (k : RKey) (x : Row) : Row :=
  if rowKey x = k then { x with csv_parts := parts } else x

/-- `INSERT ... ON CONFLICT (station, time) DO UPDATE set csv_parts=EXCLUDED.csv_parts`
against a table with a unique (station, time) constraint. -/
def upsert (s : Store) (r : Row) : Store :=
  if hasKey s (rowKey r) then s.map (setParts r.csv_parts (rowKey r))
  else s ++ [r]

/-- The unique constraint the upsert's conflict target relies on. -/
def WFStore (s : Store) : Prop := (s.map rowKey).Nodup

def rowsFor (s : Store) (k : RKey) : Store :=
  s.filter fun x => decide (rowKey x = k)

/-! ## Header validation: `metarHeaders` and `checkLines`. -/

/-- One compiled regex from `metarHeaders`: its source text (printed in error
messages via `%v`) and its `MatchString` function. -/
structure LinePattern where
  descr : String
  accepts : String → Bool

def matchesExact (lit s : String) : Bool := decide (s = lit)

/-- `^[0-9]* <word>$`: the whole line is zero or more digits then the suffix. -/
def matchesDigitsThen (suffix : List Char) (s : String) : Bool :=
  let rcs := s.data.reverse
  suffix.reverse.isPrefixOf rcs && (rcs.drop suffix.length).all Char.isDigit

def metarColsLine : String :=
  "raw_text,station_id,observation_time,latitude,longitude,temp_c,dewpoint_c,wind_dir_degrees,wind_speed_kt,wind_gust_kt,visibility_statute_mi,altim_in_hg,sea_level_pressure_mb,corrected,auto,auto_station,maintenance_indicator_on,no_signal,lightning_sensor_off,freezing_rain_sensor_off,present_weather_sensor_off,wx_string,sky_cover,cloud_base_ft_agl,sky_cover,cloud_base_ft_agl,sky_cover,cloud_base_ft_agl,sky_cover,cloud_base_ft_agl,flight_category,three_hr_pressure_tendency_mb,maxT_c,minT_c,maxT24hr_c,minT24hr_c,precip_in,pcp3hr_in,pcp6hr_in,pcp24hr_in,snow_in,vert_vis_ft,metar_type,elevation_m"

/-- `needle` occurs as a contiguous subsequence of the second list. -/
def containsSeq (needle : List Char) : List Char → Bool
  | [] => needle.isEmpty
  | c :: cs => needle.isPrefixOf (c :: cs) || containsSeq needle cs

/-- The sixth regex has no `^`/`$` anchors, so `MatchString` succeeds whenever
the expected column list appears as a substring of the line. -/
def matchesCols (s : String) : Bool := containsSeq metarColsLine.data s.data

def metarHeaders : List LinePattern :=
  [ ⟨"^No errors$", matchesExact "No errors"⟩,
    ⟨"^No warnings$", matchesExact "No warnings"⟩,
    ⟨"^[0-9]* ms$", matchesDigitsThen " ms".data⟩,
    ⟨"^data source=metars$", matchesExact "data source=metars"⟩,
    ⟨"^[0-9]* results$", matchesDigitsThen " results".data⟩,
    ⟨metarColsLine, matchesCols⟩ ]

inductive HeaderError where
  /-- `scan error while looking for <pattern>: <scanner.Err()>` — input
  exhausted before the pattern was matched (`scanner.Err()` is the underlying
  read error, absent at a clean end of input). -/
  | scanError (pattern : String) (scanErr : Option String)
  /-- `expected <pattern>, got <text>`. -/
  | mismatch (pattern : String) (actual : String)
deriving DecidableEq, Repr

/-- `checkLines(patterns, scanner)`: one `scanner.Scan()` per pattern.  The
scanner is modelled by the list of lines it still has plus the read error, if
any, that `scanner.Err()` reports once the lines run out. -/
def checkLines : List LinePattern → List String → Option String →
    Except HeaderError (List String)
  | [], lines, _ => .ok lines
  | p :: _, [], scanErr => .error (.scanError p.descr scanErr)
  | p :: ps, line :: lines, scanErr =>
    if p.accepts line then checkLines ps lines scanErr
    else .error (.mismatch p.descr line)

/-! ## writeLine / fileToDB -/

/-- Database exec oracle: whether the upsert statement for a given row fails
(constraint violation outside the conflict target, lost connection, ...). -/
structure DBEnv where
  execFails : Row → Bool

inductive WriteError where
  | parseError (e : CsvError)
  /-- `bad time <raw>: <err>` — carries the offending raw field value. -/
  | badTime (raw : String)
  | execError
deriving DecidableEq, Repr

inductive LineRes where
  /-- Out-of-bounds access on `parts`: a Go panic, not a returned error. -/
  | panic
  | err (e : WriteError)
  | row (r : Row)
deriving DecidableEq, Repr

/-- The store-independent part of `writeLine`: parse the line as CSV, read
`parts[1]` and `parts[2]` (unchecked indexing), parse the timestamp, and run
the exec oracle.  `writeLine` below applies the resulting row to the
transaction's store. -/
def lineRow (env : DBEnv) (text : String) : LineRes :=
  match parseCSVLine text with
  | .error e => .err (.parseError e)
  | .ok parts =>
    -- parts[1] and parts[2] are read with no length check: fewer than three
    -- fields is an out-of-bounds panic in Go.
    if h : 3 ≤ parts.length then
      let station := parts.get ⟨1, by omega⟩
      let raw := parts.get ⟨2, by omega⟩
      match parseRFC3339 raw with
      | none => .err (.badTime raw)
      | some observationTime =>
        let r : Row := ⟨station, observationTime, parts⟩
        if env.execFails r then .err .execError else .row r
    else .panic

inductive WLRes where
  | panic
  | err (e : WriteError)
  | ok (s : Store)
deriving DecidableEq, Repr

/-- `writeLine(tx, text)`: parse and upsert one data line into the
transaction-local store. -/
def writeLine (env : DBEnv) (tx : Store) (text : String) : WLRes :=
  match lineRow env text with
  | .panic => .panic
  | .err e => .err e
  | .row r => .ok (upsert tx r)

inductive FileError where
  | openError
  | badHeaders (e : HeaderError)
  /-- `writing line <line>: <err>`. -/
  | lineError (line : String) (e : WriteError)
  | readError (e : String)
deriving DecidableEq, Repr

inductive Outcome where
  | ok
  | err (e : FileError)
  | panic
deriving DecidableEq, Repr

/-- The `for scanner.Scan()` write loop of `fileToDB`, threading the
transaction-local store; stops at the first failing line. -/
def processLines (env : DBEnv) (tx : Store) : List String → Store × Outcome
  | [] => (tx, .ok)
  | l :: ls =>
    match writeLine env tx l with
    | .panic => (tx, .panic)
    | .err e => (tx, .err (.lineError l e))
    | .ok tx' => processLines env tx' ls

/-- A local file as the line scanner observes it: the lines it yields, and
the read error (if any) that stopped it. -/
structure FileContent where
  lines : List String
  readErr : Option String
deriving DecidableEq, Repr

/-- `fileToDB(db, fname)`: open the file, validate headers, write every
remaining line inside one transaction; commit only on full success, the
deferred `tx.Rollback()` otherwise leaves the store as it was.  The result is
the store state afterward together with the outcome. -/
def fileToDB (env : DBEnv) (db : Store) (file : Option FileContent) :
    Store × Outcome :=
  match file with
  | none => (db, .err .openError)
  | some f =>
    match checkLines metarHeaders f.lines f.readErr with
    | .error e => (db, .err (.badHeaders e))
    | .ok rest =>
      match processLines env db rest with
      | (_, .panic) => (db, .panic)
      | (_, .err e) => (db, .err e)
      | (tx, .ok) =>
        match f.readErr with
        | some e => (db, .err (.readError e))
        | none => (tx, .ok)

/-! ## downloadFile / run -/

/-- What the single `http.Get` returns, as the rest of `downloadFile`
observes it. -/
structure HttpResponse where
  statusCode : Nat
  /-- whether `gzip.NewReader` accepts the body -/
  bodyIsGzip : Bool
  /-- the decompressed content if the copy runs to completion -/
  content : FileContent
  /-- whether `io.Copy` is interrupted mid-stream -/
  copyInterrupted : Bool
  /-- what is left on disk when the copy is interrupted -/
  partialContent : FileContent

structure FetchEnv where
  httpResult : Except String HttpResponse

inductive DownloadError where
  | httpError (msg : String)
  /-- `unexpected status code <code>`. -/
  | badStatus (code : Nat)
  | gzipError
  /-- `os.OpenFile` with `O_EXCL`: the destination already exists (or cannot
  be created). -/
  | createError
  | copyError
deriving DecidableEq, Repr

/-- `downloadFile(url, filename)` over the local file slot: returns the new
file slot and the error, if any. -/
def downloadFile (env : FetchEnv) (file : Option FileContent) :
    Option FileContent × Option DownloadError :=
  match env.httpResult with
  | .error e => (file, some (.httpError e))
  | .ok resp =>
    if resp.statusCode ≠ 200 then (file, some (.badStatus resp.statusCode))
    else
      if !resp.bodyIsGzip then (file, some .gzipError)
      else
        match file with
        | some f => (some f, some .createError)
        | none =>
          if resp.copyInterrupted then (some resp.partialContent, some .copyError)
          else (some resp.content, none)

structure World where
  file : Option FileContent
  store : Store
deriving DecidableEq, Repr

structure RunEnv where
  fetch : FetchEnv
  /-- whether `sql.Open` fails -/
  connectFails : Bool
  execFails : Row → Bool
  /-- whether `os.Remove` fails -/
  removeFails : Bool

inductive RunError where
  | downloadError (e : DownloadError)
  | connectError
  | storeError (e : FileError)
  | removeError
deriving DecidableEq, Repr

inductive ROut where
  | ok
  | err (e : RunError)
  | panic
deriving DecidableEq, Repr

/-- The part of `run` after the optional download: connect, ingest, and (in
download mode) delete the local file. -/
def runIngest (download : Bool) (env : RunEnv) (w : World) : World × ROut :=
  if env.connectFails then (w, .err .connectError)
  else
    match fileToDB ⟨env.execFails⟩ w.store w.file with
    | (_, .panic) => (w, .panic)
    | (_, .err e) => (w, .err (.storeError e))
    | (db', .ok) =>
      if download then
        if env.removeFails then ({ w with store := db' }, .err .removeError)
        else ({ file := none, store := db' }, .ok)
      else ({ w with store := db' }, .ok)

/-- `run(flags)`: optionally fetch, then ingest, then optionally delete. -/
def run (download : Bool) (env : RunEnv) (w : World) : World × ROut :=
  if download then
    match downloadFile env.fetch w.file with
    | (f', some e) => ({ w with file := f' }, .err (.downloadError e))
    | (f', none) => runIngest download env { w with file := f' }
  else runIngest download env w

/-! ## Concrete values used by witnesses -/

def envOK : DBEnv := ⟨fun _ => false⟩

def goodHeaderLines : List String :=
  ["No errors", "No warnings", "3 ms", "data source=metars", "2 results", metarColsLine]

def goodDataLine : String := "raw,KSEA,2024-01-01T00:00:00Z"

def tsKSEA : Timestamp := ⟨1704067200, 0⟩

def rowKSEA : Row := ⟨"KSEA", tsKSEA, ["raw", "KSEA", "2024-01-01T00:00:00Z"]⟩

def fGood : FileContent := ⟨goodHeaderLines ++ [goodDataLine], none⟩

def storeGood : Store := [rowKSEA]

def fBad : FileContent := ⟨goodHeaderLines ++ ["raw,KSEA,2024-13-40"], none⟩

def fShort : FileContent := ⟨["No errors"], none⟩

def tsOffset : Timestamp := ⟨1703980800, 0⟩

def rowOffset : Row := ⟨"KSEA", tsOffset, ["x", "KSEA", "2024-01-01T00:00:00+24:00"]⟩

def fOffset : FileContent :=
  ⟨goodHeaderLines ++ ["x,KSEA,2024-01-01T00:00:00+24:00"], none⟩

def fAlteredSixth : FileContent :=
  ⟨["No errors", "No warnings", "3 ms", "data source=metars", "2 results",
    "X" ++ metarColsLine, goodDataLine], none⟩

def rowA : Row := ⟨"KSEA", tsKSEA, ["A"]⟩

def rowB : Row := ⟨"KSEA", tsKSEA, ["B"]⟩

def applyRows (s : Store) (rs : List Row) : Store := rs.foldl upsert s

/-- `s` and `t` have the same shape and agree on every row whose key is not
`k`; rows at positions where they differ both carry key `k`. -/
def AgreeOff (k : RKey) : Store → Store → Prop :=
  List.Forall₂ (fun a b => a = b ∨ (rowKey a = k ∧ rowKey b = k))

/-- The rows the data lines denote, when every line parses and execs. -/
def rowsOf (env : DBEnv) : List String → Option (List Row)
  | [] => some []
  | l :: ls =>
    match lineRow env l with
    | .row r => (rowsOf env ls).map (r :: ·)
    | _ => none

def checkPassed (lines : List String) (re : Option String) : Bool :=
  match checkLines metarHeaders lines re with
  | .ok _ => true
  | .error _ => false

def respGood : HttpResponse := ⟨200, true, fGood, false, ⟨[], none⟩⟩

def envRun : RunEnv := ⟨⟨.ok respGood⟩, false, fun _ => false, false⟩

def resp404 : HttpResponse := ⟨404, true, fGood, false, ⟨[], none⟩⟩

def env404 : FetchEnv := ⟨.ok resp404⟩

deriving instance DecidableEq for Except

instance (s : Store) : Decidable (WFStore s) := by
  unfold WFStore
  infer_instance

/-! ## Store lemmas -/

theorem rowKey_setParts (p : List String) (k : RKey) (x : Row) :
    rowKey (setParts p k x) = rowKey x := by
  unfold setParts
  split <;> rfl

theorem hasKey_map_setParts (p : List String) (k0 k : RKey) :
    ∀ s : Store, hasKey (s.map (setParts p k0)) k = hasKey s k := by
  intro s
  induction s with
  | nil => rfl
  | cons x s ih =>
    simp only [hasKey, List.map_cons, List.any_cons] at *
    rw [rowKey_setParts, ih]

theorem hasKey_upsert (s : Store) (r : Row) (k : RKey) :
    hasKey (upsert s r) k = (hasKey s k || decide (rowKey r = k)) := by
  unfold upsert
  split
  · rename_i h
    rw [hasKey_map_setParts]
    rcases Decidable.em (rowKey r = k) with hk | hk
    · subst hk; simp [h]
    · simp [hk]
  · simp [hasKey, List.any_append]

theorem applyRows_cons (s : Store) (r : Row) (rs : List Row) :
    applyRows s (r :: rs) = applyRows (upsert s r) rs := rfl

theorem hasKey_applyRows_mono (k : RKey) :
    ∀ (rs : List Row) (s : Store), hasKey s k = true →
      hasKey (applyRows s rs) k = true := by
  intro rs
  induction rs with
  | nil => intro s h; exact h
  | cons r rs ih =>
    intro s h
    rw [applyRows_cons]
    exact ih _ (by rw [hasKey_upsert, h]; rfl)

theorem hasKey_eq_false_iff (s : Store) (k : RKey) :
    hasKey s k = false ↔ ∀ x ∈ s, rowKey x ≠ k := by
  simp [hasKey, List.any_eq_false]

theorem csvparts_eq_of_mem_upsert (s : Store) (r : Row) :
    ∀ x ∈ upsert s r, rowKey x = rowKey r → x.csv_parts = r.csv_parts := by
  intro x hx hk
  unfold upsert at hx
  split at hx
  · rcases List.mem_map.mp hx with ⟨y, hy, rfl⟩
    rw [rowKey_setParts] at hk
    simp [setParts, hk]
  · rename_i hno
    rcases List.mem_append.mp hx with hxs | hxr
    · exact absurd hk ((hasKey_eq_false_iff s (rowKey r)).mp (Bool.eq_false_iff.mpr hno) x hxs)
    · have := List.mem_singleton.mp hxr
      subst this
      rfl

theorem csvparts_preserved_upsert (k : RKey) (p : List String) (s : Store) (r : Row)
    (hs : ∀ x ∈ s, rowKey x = k → x.csv_parts = p) (hr : rowKey r ≠ k) :
    ∀ x ∈ upsert s r, rowKey x = k → x.csv_parts = p := by
  intro x hx hk
  unfold upsert at hx
  split at hx
  · rcases List.mem_map.mp hx with ⟨y, hy, rfl⟩
    rw [rowKey_setParts] at hk
    unfold setParts
    split
    · rename_i hy2
      exact absurd (hy2.symm.trans hk) hr
    · exact hs y hy hk
  · rcases List.mem_append.mp hx with hxs | hxr
    · exact hs x hxs hk
    · have := List.mem_singleton.mp hxr
      subst this
      exact absurd hk hr

theorem csvparts_preserved_applyRows (k : RKey) (p : List String) :
    ∀ (rs : List Row) (s : Store),
      (∀ x ∈ s, rowKey x = k → x.csv_parts = p) →
      (∀ r ∈ rs, rowKey r ≠ k) →
      ∀ x ∈ applyRows s rs, rowKey x = k → x.csv_parts = p := by
  intro rs
  induction rs with
  | nil => intro s hs _; exact hs
  | cons r rs ih =>
    intro s hs hrs
    rw [applyRows_cons]
    exact ih _ (csvparts_preserved_upsert k p s r hs (hrs r (List.mem_cons_self r rs)))
      (fun r' h => hrs r' (List.mem_cons_of_mem r h))

theorem map_setParts_id (p : List String) (k : RKey) :
    ∀ s : Store, (∀ x ∈ s, rowKey x = k → x.csv_parts = p) →
      s.map (setParts p k) = s := by
  intro s
  induction s with
  | nil => intro _; rfl
  | cons x s ih =>
    intro h
    simp only [List.map_cons]
    have hx : setParts p k x = x := by
      unfold setParts
      split
      · rename_i hxk
        have := h x (List.mem_cons_self x s) hxk
        cases x
        simp_all
      · rfl
    rw [hx, ih (fun y hy => h y (List.mem_cons_of_mem x hy))]

theorem upsert_of_hasKey (s : Store) (r : Row) (hk : hasKey s (rowKey r) = true) :
    upsert s r = s.map (setParts r.csv_parts (rowKey r)) := by
  unfold upsert
  simp only [hk, if_true]

theorem upsert_id (s : Store) (r : Row)
    (hk : hasKey s (rowKey r) = true)
    (hp : ∀ x ∈ s, rowKey x = rowKey r → x.csv_parts = r.csv_parts) :
    upsert s r = s := by
  unfold upsert
  simp only [hk, if_true]
  exact map_setParts_id _ _ s hp

/-! ## Stores that agree except at one key -/

theorem AgreeOff.keys {k : RKey} {s t : Store} (h : AgreeOff k s t) :
    s.map rowKey = t.map rowKey := by
  induction h with
  | nil => rfl
  | cons hab _ ih =>
    simp only [List.map_cons, ih]
    rcases hab with rfl | ⟨h1, h2⟩
    · rfl
    · rw [h1, h2]

theorem hasKey_eq_map_any (s : Store) (k : RKey) :
    hasKey s k = (s.map rowKey).any (fun x => decide (x = k)) := by
  induction s with
  | nil => rfl
  | cons x s ih =>
    simp only [hasKey, List.map_cons, List.any_cons]
    simp only [hasKey] at ih
    rw [ih]

theorem hasKey_congr {s t : Store} (h : s.map rowKey = t.map rowKey) (k : RKey) :
    hasKey s k = hasKey t k := by
  rw [hasKey_eq_map_any, hasKey_eq_map_any, h]

theorem AgreeOff.map_setParts {k : RKey} {s t : Store} (h : AgreeOff k s t)
    (p : List String) (k0 : RKey) :
    AgreeOff k (s.map (setParts p k0)) (t.map (setParts p k0)) := by
  induction h with
  | nil => exact List.Forall₂.nil
  | cons hab _ ih =>
    simp only [List.map_cons]
    refine List.Forall₂.cons ?_ ih
    rcases hab with rfl | ⟨h1, h2⟩
    · exact Or.inl rfl
    · exact Or.inr ⟨by rw [rowKey_setParts, h1], by rw [rowKey_setParts, h2]⟩

theorem AgreeOff.append_single {k : RKey} {s t : Store} (h : AgreeOff k s t) (r : Row) :
    AgreeOff k (s ++ [r]) (t ++ [r]) := by
  induction h with
  | nil => exact List.Forall₂.cons (Or.inl rfl) List.Forall₂.nil
  | cons hab _ ih =>
    simp only [List.cons_append]
    exact List.Forall₂.cons hab ih

theorem AgreeOff.upsert_both {k : RKey} {s t : Store} (h : AgreeOff k s t) (r : Row) :
    AgreeOff k (upsert s r) (upsert t r) := by
  unfold upsert
  rw [hasKey_congr h.keys (rowKey r)]
  split
  · exact h.map_setParts _ _
  · exact h.append_single r

theorem AgreeOff.eq_of_not_hasKey {k : RKey} {s t : Store} (h : AgreeOff k s t)
    (hk : hasKey s k = false) : s = t := by
  induction h with
  | nil => rfl
  | cons hab htl ih =>
    rename_i a b s' t'
    have h1 : ¬(rowKey a = k) ∧ hasKey s' k = false := by
      constructor
      · exact (hasKey_eq_false_iff _ k).mp hk a (List.mem_cons_self a s')
      · rw [hasKey_eq_false_iff] at hk ⊢
        exact fun x hx => hk x (List.mem_cons_of_mem a hx)
    rcases hab with rfl | ⟨ha, _⟩
    · rw [ih h1.2]
    · exact absurd ha h1.1

theorem agreeOff_map_setParts_self (p : List String) (k : RKey) :
    ∀ s : Store, AgreeOff k (s.map (setParts p k)) s := by
  intro s
  induction s with
  | nil => exact List.Forall₂.nil
  | cons x s ih =>
    simp only [List.map_cons]
    refine List.Forall₂.cons ?_ ih
    unfold setParts
    split
    · rename_i hx
      exact Or.inr ⟨hx, hx⟩
    · exact Or.inl rfl

theorem upsert_eq_of_agree {k : RKey} {s t : Store} (h : AgreeOff k s t) (r : Row)
    (hr : rowKey r = k) : upsert s r = upsert t r := by
  cases hc : hasKey s k with
  | false => rw [h.eq_of_not_hasKey hc]
  | true =>
    have hct : hasKey t k = true := (hasKey_congr h.keys k).symm.trans hc
    have hmap : ∀ {s' t' : Store}, AgreeOff k s' t' →
        s'.map (setParts r.csv_parts k) = t'.map (setParts r.csv_parts k) := by
      intro s' t' h'
      induction h' with
      | nil => rfl
      | @cons a b l1 l2 hab htl ih =>
        simp only [List.map_cons, ih]
        rcases hab with rfl | ⟨h1, h2⟩
        · rfl
        · have hst : a.station = b.station := congrArg Prod.fst (h1.trans h2.symm)
          have htm : a.time = b.time := congrArg Prod.snd (h1.trans h2.symm)
          unfold setParts
          rw [if_pos h1, if_pos h2, hst, htm]
    unfold upsert
    rw [hr]
    simp only [hc, hct, if_true]
    exact hmap h

theorem applyRows_eq_of_agree {k : RKey} :
    ∀ (rs : List Row) {s t : Store}, AgreeOff k s t →
      (∃ r ∈ rs, rowKey r = k) → applyRows s rs = applyRows t rs := by
  intro rs
  induction rs with
  | nil =>
    intro s t _ hex
    rcases hex with ⟨r, hr, _⟩
    cases hr
  | cons r rest ih =>
    intro s t h hex
    rw [applyRows_cons, applyRows_cons]
    by_cases hk : rowKey r = k
    · rw [upsert_eq_of_agree h r hk]
    · rcases hex with ⟨r', hr', hk'⟩
      have hr'' : r' ∈ rest := by
        rcases List.mem_cons.mp hr' with rfl | h'
        · exact absurd hk' hk
        · exact h'
      exact ih (h.upsert_both r) ⟨r', hr'', hk'⟩

theorem applyRows_idem : ∀ (rs : List Row) (s : Store),
    applyRows (applyRows s rs) rs = applyRows s rs := by
  intro rs
  induction rs with
  | nil => intro s; rfl
  | cons r rest ih =>
    intro s
    rw [applyRows_cons, applyRows_cons]
    have hk : hasKey (applyRows (upsert s r) rest) (rowKey r) = true := by
      refine hasKey_applyRows_mono _ rest (upsert s r) ?_
      rw [hasKey_upsert]
      simp
    by_cases hrest : ∃ r' ∈ rest, rowKey r' = rowKey r
    · have h4 : upsert (applyRows (upsert s r) rest) r =
          (applyRows (upsert s r) rest).map (setParts r.csv_parts (rowKey r)) :=
        upsert_of_hasKey _ r hk
      have hAg : AgreeOff (rowKey r) (upsert (applyRows (upsert s r) rest) r)
          (applyRows (upsert s r) rest) := by
        rw [h4]
        exact agreeOff_map_setParts_self _ _ _
      rw [applyRows_eq_of_agree rest hAg hrest]
      exact ih (upsert s r)
    · push_neg at hrest
      have hparts : ∀ x ∈ applyRows (upsert s r) rest,
          rowKey x = rowKey r → x.csv_parts = r.csv_parts :=
        csvparts_preserved_applyRows _ _ rest (upsert s r)
          (csvparts_eq_of_mem_upsert s r) hrest
      rw [upsert_id _ r hk hparts]
      exact ih (upsert s r)

/-! ## processLines and fileToDB lemmas -/

theorem processLines_of_rowsOf (env : DBEnv) :
    ∀ (ls : List String) (rs : List Row), rowsOf env ls = some rs →
      ∀ tx : Store, processLines env tx ls = (applyRows tx rs, .ok) := by
  intro ls
  induction ls with
  | nil =>
    intro rs h tx
    cases h
    rfl
  | cons l ls ih =>
    intro rs h tx
    unfold rowsOf at h
    cases hl : lineRow env l with
    | panic => rw [hl] at h; cases h
    | err e => rw [hl] at h; cases h
    | row r =>
      rw [hl] at h
      cases ho : rowsOf env ls with
      | none => rw [ho] at h; cases h
      | some rs' =>
        rw [ho] at h
        cases h
        show processLines env tx (l :: ls) = (applyRows (upsert tx r) rs', .ok)
        unfold processLines writeLine
        rw [hl]
        exact ih rs' ho (upsert tx r)

theorem rowsOf_of_processLines_ok (env : DBEnv) :
    ∀ (ls : List String) (tx : Store), (processLines env tx ls).2 = .ok →
      ∃ rs, rowsOf env ls = some rs := by
  intro ls
  induction ls with
  | nil => intro tx _; exact ⟨[], rfl⟩
  | cons l ls ih =>
    intro tx h
    unfold processLines writeLine at h
    cases hl : lineRow env l with
    | panic => rw [hl] at h; cases h
    | err e => rw [hl] at h; cases h
    | row r =>
      rw [hl] at h
      rcases ih (upsert tx r) h with ⟨rs, hrs⟩
      exact ⟨r :: rs, by simp [rowsOf, hl, hrs]⟩

theorem lineRow_isRow_of_processLines_ok (env : DBEnv) :
    ∀ (ls : List String) (tx : Store), (processLines env tx ls).2 = .ok →
      ∀ l ∈ ls, ∃ r, lineRow env l = .row r := by
  intro ls
  induction ls with
  | nil => intro tx _ l hl; cases hl
  | cons l0 ls ih =>
    intro tx h l hl
    unfold processLines writeLine at h
    cases hl0 : lineRow env l0 with
    | panic => rw [hl0] at h; cases h
    | err e => rw [hl0] at h; cases h
    | row r =>
      rw [hl0] at h
      rcases List.mem_cons.mp hl with rfl | hl'
      · exact ⟨r, hl0⟩
      · exact ih (upsert tx r) h l hl'

/-- Shared rollback lemma: once the header check has passed, a failing data
line (CSV error, bad timestamp, exec failure) or a scanner read error leaves
the store exactly as it was, and the outcome is not success. -/
theorem fileToDB_rollback (env : DBEnv) (db : Store) (f : FileContent) (rest : List String)
    (hh : checkLines metarHeaders f.lines f.readErr = Except.ok rest)
    (hfail : (∃ l ∈ rest, ∃ e, lineRow env l = .err e) ∨ f.readErr ≠ none) :
    (fileToDB env db (some f)).1 = db ∧ (fileToDB env db (some f)).2 ≠ .ok := by
  simp only [fileToDB, hh]
  cases hp : processLines env db rest with
  | mk st out =>
    cases out with
    | panic => simp [hp]
    | err e => simp [hp]
    | ok =>
      rcases hfail with ⟨l, hl, e, he⟩ | hre
      · rcases lineRow_isRow_of_processLines_ok env rest db (by rw [hp]) l hl with ⟨r, hr⟩
        rw [hr] at he
        cases he
      · cases hre' : f.readErr with
        | none => exact absurd hre' hre
        | some e => simp [hp, hre']

/-! ## checkLines lemmas -/

theorem checkLines_ok :
    ∀ (ps : List LinePattern) (lines : List String) (re : Option String)
      (rest : List String), checkLines ps lines re = .ok rest →
      rest = lines.drop ps.length ∧ ps.length ≤ lines.length ∧
        ∀ i (hp : i < ps.length) (hl : i < lines.length),
          (ps.get ⟨i, hp⟩).accepts (lines.get ⟨i, hl⟩) = true := by
  intro ps
  induction ps with
  | nil =>
    intro lines re rest h
    cases h
    exact ⟨rfl, Nat.zero_le _, fun i hp => absurd hp (Nat.not_lt_zero i)⟩
  | cons p ps ih =>
    intro lines re rest h
    cases lines with
    | nil => cases h
    | cons l lines =>
      unfold checkLines at h
      by_cases hacc : p.accepts l = true
      · rw [if_pos hacc] at h
        rcases ih lines re rest h with ⟨h1, h2, h3⟩
        refine ⟨h1, Nat.succ_le_succ h2, ?_⟩
        intro i hp hl
        cases i with
        | zero => exact hacc
        | succ i =>
          rw [List.get_cons_succ, List.get_cons_succ]
          exact h3 i (Nat.lt_of_succ_lt_succ hp) (Nat.lt_of_succ_lt_succ hl)
      · rw [if_neg hacc] at h
        cases h

theorem checkLines_exhausted :
    ∀ (ps : List LinePattern) (lines : List String) (re : Option String)
      (h : lines.length < ps.length),
      (∀ i (hi : i < lines.length),
        (ps.get ⟨i, Nat.lt_trans hi h⟩).accepts (lines.get ⟨i, hi⟩) = true) →
      checkLines ps lines re =
        .error (.scanError (ps.get ⟨lines.length, h⟩).descr re) := by
  intro ps
  induction ps with
  | nil => intro lines re h; exact absurd h (Nat.not_lt_zero _)
  | cons p ps ih =>
    intro lines re h hall
    cases lines with
    | nil => rfl
    | cons l lines =>
      have h0 : p.accepts l = true := hall 0 (Nat.succ_pos _)
      unfold checkLines
      rw [if_pos h0]
      have hlt : lines.length < ps.length := Nat.lt_of_succ_lt_succ h
      rw [ih lines re hlt (fun i hi => by
        have := hall (i + 1) (Nat.succ_lt_succ hi)
        rwa [List.get_cons_succ, List.get_cons_succ] at this)]
      rfl

theorem checkLines_mismatch :
    ∀ (ps : List LinePattern) (lines : List String) (re : Option String)
      (i : Nat) (hp : i < ps.length) (hl : i < lines.length),
      (∀ j (hj : j < i),
        (ps.get ⟨j, Nat.lt_trans hj hp⟩).accepts
          (lines.get ⟨j, Nat.lt_trans hj hl⟩) = true) →
      (ps.get ⟨i, hp⟩).accepts (lines.get ⟨i, hl⟩) = false →
      checkLines ps lines re =
        .error (.mismatch (ps.get ⟨i, hp⟩).descr (lines.get ⟨i, hl⟩)) := by
  intro ps
  induction ps with
  | nil => intro lines re i hp; exact absurd hp (Nat.not_lt_zero _)
  | cons p ps ih =>
    intro lines re i hp hl hprev hmis
    cases lines with
    | nil => exact absurd hl (Nat.not_lt_zero _)
    | cons l lines =>
      cases i with
      | zero =>
        have hm : p.accepts l = false := by simpa using hmis
        unfold checkLines
        rw [if_neg (by simp [hm])]
        simp
      | succ i =>
        have h0 : p.accepts l = true := hprev 0 (Nat.succ_pos _)
        unfold checkLines
        rw [if_pos h0]
        have hp' : i < ps.length := Nat.lt_of_succ_lt_succ hp
        have hl' : i < lines.length := Nat.lt_of_succ_lt_succ hl
        rw [ih lines re i hp' hl' (fun j hj => by
          have := hprev (j + 1) (Nat.succ_lt_succ hj)
          rwa [List.get_cons_succ, List.get_cons_succ] at this)
          (by rwa [List.get_cons_succ, List.get_cons_succ] at hmis)]
        rw [List.get_cons_succ, List.get_cons_succ]

/-! ## rowsFor lemmas (upsert replace semantics) -/

theorem upsert_of_not_hasKey (s : Store) (r : Row) (hk : hasKey s (rowKey r) = false) :
    upsert s r = s ++ [r] := by
  unfold upsert
  simp [hk]

theorem rowsFor_map_setParts_nil (p : List String) (k0 k : RKey) (s : Store)
    (h : ∀ y ∈ s, rowKey y ≠ k) :
    rowsFor (s.map (setParts p k0)) k = [] := by
  unfold rowsFor
  rw [List.filter_eq_nil_iff]
  intro x hx
  rcases List.mem_map.mp hx with ⟨y, hy, rfl⟩
  simp [rowKey_setParts, h y hy]

theorem rowsFor_map_setParts_self (r : Row) :
    ∀ s : Store, (s.map rowKey).Nodup → hasKey s (rowKey r) = true →
      rowsFor (s.map (setParts r.csv_parts (rowKey r))) (rowKey r) = [r] := by
  intro s
  induction s with
  | nil => intro _ h; cases h
  | cons x s ih =>
    intro hnd hk
    simp only [List.map_cons, List.nodup_cons] at hnd
    by_cases hx : rowKey x = rowKey r
    · have hhead : setParts r.csv_parts (rowKey r) x = r := by
        unfold setParts
        rw [if_pos hx]
        have hst : x.station = r.station := congrArg Prod.fst hx
        have htm : x.time = r.time := congrArg Prod.snd hx
        cases x
        cases r
        simp_all
      have htail : rowsFor (s.map (setParts r.csv_parts (rowKey r))) (rowKey r) = [] := by
        refine rowsFor_map_setParts_nil _ _ _ s ?_
        intro y hy hyk
        have hmem : rowKey x ∈ List.map rowKey s := by
          rw [hx, ← hyk]
          exact List.mem_map_of_mem rowKey hy
        exact hnd.1 hmem
      simp only [List.map_cons, hhead]
      unfold rowsFor at htail ⊢
      rw [List.filter_cons, if_pos (by simp), htail]
    · have hxeq : setParts r.csv_parts (rowKey r) x = x := by
        unfold setParts
        rw [if_neg hx]
      have hk' : hasKey s (rowKey r) = true := by
        simp only [hasKey, List.any_cons, Bool.or_eq_true] at hk
        rcases hk with h | h
        · exact absurd (of_decide_eq_true h) hx
        · exact h
      simp only [List.map_cons, hxeq]
      unfold rowsFor at ih ⊢
      rw [List.filter_cons, if_neg (by simp [hx])]
      exact ih hnd.2 hk'

theorem rowsFor_upsert_self (s : Store) (r : Row) (hwf : WFStore s) :
    rowsFor (upsert s r) (rowKey r) = [r] := by
  cases hk : hasKey s (rowKey r) with
  | true =>
    rw [upsert_of_hasKey s r hk]
    exact rowsFor_map_setParts_self r s hwf hk
  | false =>
    rw [upsert_of_not_hasKey s r hk]
    unfold rowsFor
    rw [List.filter_append]
    have h1 : s.filter (fun x => decide (rowKey x = rowKey r)) = [] := by
      rw [List.filter_eq_nil_iff]
      intro x hx
      simp [(hasKey_eq_false_iff s (rowKey r)).mp hk x hx]
    rw [h1]
    simp

theorem rowsFor_map_setParts_other (p : List String) (k0 k : RKey) (hne : k ≠ k0) :
    ∀ s : Store, rowsFor (s.map (setParts p k0)) k = rowsFor s k := by
  intro s
  induction s with
  | nil => rfl
  | cons x s ih =>
    simp only [List.map_cons]
    unfold rowsFor at ih ⊢
    rw [List.filter_cons, List.filter_cons]
    by_cases hx : rowKey x = k
    · have hxk0 : ¬ rowKey x = k0 := fun h => hne (hx ▸ h)
      have hxeq : setParts p k0 x = x := by
        unfold setParts
        rw [if_neg hxk0]
      rw [hxeq, ih]
    · rw [if_neg (by simp [rowKey_setParts, hx]), if_neg (by simp [hx]), ih]

theorem rowsFor_upsert_other (s : Store) (r : Row) (k : RKey) (hne : k ≠ rowKey r) :
    rowsFor (upsert s r) k = rowsFor s k := by
  cases hk : hasKey s (rowKey r) with
  | true => rw [upsert_of_hasKey s r hk, rowsFor_map_setParts_other _ _ _ hne]
  | false =>
    rw [upsert_of_not_hasKey s r hk]
    unfold rowsFor
    rw [List.filter_append]
    have h1 : List.filter (fun x => decide (rowKey x = k)) [r] = [] := by
      simp only [List.filter_cons, List.filter_nil]
      rw [if_neg]
      simp only [decide_eq_true_eq]
      exact fun h => hne h.symm
    rw [h1]
    simp

theorem wf_upsert (s : Store) (r : Row) (hwf : WFStore s) : WFStore (upsert s r) := by
  cases hk : hasKey s (rowKey r) with
  | true =>
    rw [upsert_of_hasKey s r hk]
    unfold WFStore at *
    have hkeys : (s.map (setParts r.csv_parts (rowKey r))).map rowKey = s.map rowKey := by
      rw [List.map_map]
      exact List.map_congr_left fun x _ => rowKey_setParts _ _ _
    rw [hkeys]
    exact hwf
  | false =>
    rw [upsert_of_not_hasKey s r hk]
    unfold WFStore at *
    rw [List.map_append, List.nodup_append]
    refine ⟨hwf, List.nodup_singleton _, ?_⟩
    intro a ha hb
    have ha' : a = rowKey r := by simpa using hb
    subst ha'
    rcases List.mem_map.mp ha with ⟨x, hx, hxk⟩
    exact (hasKey_eq_false_iff s (rowKey r)).mp hk x hx hxk

/-! ## Claim theorems -/

/-- Claim C1: once the header block has been validated, if any data line of
the file fails (CSV parse failure, bad timestamp, exec/write failure) or the
scanner reports a read error, the transaction is rolled back: the store
afterward is exactly the initial store, and the outcome is not success —
ingesting one file is all-or-nothing. -/
theorem ingest_all_or_nothing (env : DBEnv) (db : Store) (f : FileContent)
    (rest : List String)
    (hh : checkLines metarHeaders f.lines f.readErr = Except.ok rest)
    (hfail : (∃ l ∈ rest, ∃ e, lineRow env l = .err e) ∨ f.readErr ≠ none) :
    (fileToDB env db (some f)).1 = db ∧ (fileToDB env db (some f)).2 ≠ .ok :=
  fileToDB_rollback env db f rest hh hfail

theorem ingest_all_or_nothing_witness :
    (fileToDB envOK [] (some fBad)).1 = [] ∧ (fileToDB envOK [] (some fBad)).2 ≠ .ok :=
  ingest_all_or_nothing envOK [] fBad ["raw,KSEA,2024-13-40"] (by decide)
    (Or.inl ⟨"raw,KSEA,2024-13-40", by decide, WriteError.badTime "2024-13-40", by decide⟩)

/-- Claim C2: on a store whose (station, time) keys are unique, upserting a
row replaces the stored `csv_parts` at its key (last-write-wins, no merge):
afterward exactly that one row sits at the key, every other key is untouched,
key uniqueness is preserved, and upserting field sequence A then B at the
same key leaves exactly one row, with contents B. -/
theorem upsert_last_write_wins (s : Store) (r : Row) (hwf : WFStore s) :
    WFStore (upsert s r) ∧
    rowsFor (upsert s r) (rowKey r) = [r] ∧
    (∀ k, k ≠ rowKey r → rowsFor (upsert s r) k = rowsFor s k) ∧
    (∀ r2, rowKey r2 = rowKey r →
      rowsFor (upsert (upsert s r) r2) (rowKey r) = [r2]) := by
  refine ⟨wf_upsert s r hwf, rowsFor_upsert_self s r hwf,
    fun k hk => rowsFor_upsert_other s r k hk, ?_⟩
  intro r2 h2
  have h := rowsFor_upsert_self (upsert s r) r2 (wf_upsert s r hwf)
  rwa [h2] at h

theorem upsert_last_write_wins_witness :
    rowsFor (upsert [] rowA) (rowKey rowA) = [rowA] ∧
    rowsFor (upsert (upsert [] rowA) rowB) (rowKey rowA) = [rowB] :=
  ⟨(upsert_last_write_wins [] rowA (by decide)).2.1,
   (upsert_last_write_wins [] rowA (by decide)).2.2.2 rowB (by decide)⟩

/-- Claim C3: ingestion is idempotent — if ingesting a file succeeds and
produces store `s'`, ingesting the same file again from `s'` succeeds and
leaves the store exactly `s'` (no duplicate rows, same field contents). -/
theorem ingest_idempotent (env : DBEnv) (db s' : Store) (f : FileContent)
    (h : fileToDB env db (some f) = (s', .ok)) :
    fileToDB env s' (some f) = (s', .ok) := by
  simp only [fileToDB] at h ⊢
  cases hh : checkLines metarHeaders f.lines f.readErr with
  | error e =>
    simp only [hh] at h
    simp at h
  | ok rest =>
    simp only [hh] at h ⊢
    cases hp : processLines env db rest with
    | mk st out =>
      cases out with
      | panic => simp only [hp] at h; simp at h
      | err e => simp only [hp] at h; simp at h
      | ok =>
        simp only [hp] at h
        cases hre : f.readErr with
        | some e => simp only [hre] at h; simp at h
        | none =>
          simp only [hre] at h ⊢
          injection h with h1 _
          subst h1
          rcases rowsOf_of_processLines_ok env rest db (by rw [hp]) with ⟨rs, hrs⟩
          have h1 : processLines env db rest = (applyRows db rs, .ok) :=
            processLines_of_rowsOf env rest rs hrs db
          rw [hp] at h1
          injection h1 with hsteq _
          have h2 : processLines env st rest = (applyRows st rs, .ok) :=
            processLines_of_rowsOf env rest rs hrs st
          simp only [h2]
          rw [hsteq, applyRows_idem]

theorem ingest_idempotent_witness :
    fileToDB envOK storeGood (some fGood) = (storeGood, .ok) :=
  ingest_idempotent envOK [] storeGood fGood (by decide)

theorem checkLines_cons_ok {p : LinePattern} {ps : List LinePattern} {l : String}
    {lines rest : List String} {re : Option String}
    (h : checkLines (p :: ps) (l :: lines) re = .ok rest) :
    p.accepts l = true ∧ checkLines ps lines re = .ok rest := by
  unfold checkLines at h
  by_cases ha : p.accepts l = true
  · rw [if_pos ha] at h
    exact ⟨ha, h⟩
  · rw [if_neg ha] at h
    cases h

/-- Claim C4 counterexample: the sixth header regex carries no anchors, so an
altered sixth header line — here with a stray "X" prepended to the column
list — still passes validation, and the file's data rows are stored; the
claim that any altered header line fails validation and stores nothing is
false. -/
theorem header_sixth_line_unanchored_cex :
    ("X" ++ metarColsLine ≠ metarColsLine) ∧
    fileToDB envOK [] (some fAlteredSixth) = ([rowKSEA], .ok) := by
  constructor
  · decide
  · decide

/-- Claim C4 amended: header validation passes exactly when the file has at
least six lines, the first five match their anchored patterns as whole lines
("No errors", "No warnings", digits then " ms", "data source=metars", digits
then " results"), and the sixth merely contains the expected column-header
text as a substring (its pattern is unanchored); whenever validation fails —
in particular when one of the six lines is missing or a line no longer
matches — the store is left unchanged and no rows are produced. -/
theorem header_validation_characterization :
    (∀ (lines : List String) (re : Option String),
      checkPassed lines re = true ↔
        ∃ l0 l1 l2 l3 l4 l5 rest, lines = l0 :: l1 :: l2 :: l3 :: l4 :: l5 :: rest ∧
          l0 = "No errors" ∧ l1 = "No warnings" ∧
          matchesDigitsThen " ms".data l2 = true ∧
          l3 = "data source=metars" ∧
          matchesDigitsThen " results".data l4 = true ∧
          matchesCols l5 = true) ∧
    (∀ (env : DBEnv) (db : Store) (f : FileContent),
      checkPassed f.lines f.readErr = false →
      (fileToDB env db (some f)).1 = db ∧ (fileToDB env db (some f)).2 ≠ .ok) := by
  constructor
  · intro lines re
    constructor
    · intro h
      unfold checkPassed at h
      cases hc : checkLines metarHeaders lines re with
      | error e => rw [hc] at h; cases h
      | ok rest0 =>
        simp only [metarHeaders] at hc
        cases lines with
        | nil => simp [checkLines] at hc
        | cons l0 t0 =>
        rcases checkLines_cons_ok hc with ⟨a0, hc⟩
        cases t0 with
        | nil => simp [checkLines] at hc
        | cons l1 t1 =>
        rcases checkLines_cons_ok hc with ⟨a1, hc⟩
        cases t1 with
        | nil => simp [checkLines] at hc
        | cons l2 t2 =>
        rcases checkLines_cons_ok hc with ⟨a2, hc⟩
        cases t2 with
        | nil => simp [checkLines] at hc
        | cons l3 t3 =>
        rcases checkLines_cons_ok hc with ⟨a3, hc⟩
        cases t3 with
        | nil => simp [checkLines] at hc
        | cons l4 t4 =>
        rcases checkLines_cons_ok hc with ⟨a4, hc⟩
        cases t4 with
        | nil => simp [checkLines] at hc
        | cons l5 rest =>
        rcases checkLines_cons_ok hc with ⟨a5, hc⟩
        exact ⟨l0, l1, l2, l3, l4, l5, rest, rfl, of_decide_eq_true a0,
          of_decide_eq_true a1, a2, of_decide_eq_true a3, a4, a5⟩
    · intro h
      rcases h with ⟨l0, l1, l2, l3, l4, l5, rest, rfl, e0, e1, e2, e3, e4, e5⟩
      subst e0
      subst e1
      subst e3
      unfold checkPassed
      simp [checkLines, metarHeaders, matchesExact, e2, e4, e5]
  · intro env db f hf
    unfold checkPassed at hf
    cases hc : checkLines metarHeaders f.lines f.readErr with
    | ok rest => rw [hc] at hf; cases hf
    | error e => simp [fileToDB, hc]

theorem header_validation_characterization_witness :
    (fileToDB envOK [] (some fShort)).1 = [] ∧ (fileToDB envOK [] (some fShort)).2 ≠ .ok :=
  header_validation_characterization.2 envOK [] fShort (by decide)

/-- Claim C5: `checkLines` consumes exactly one input line per pattern in
order: on success the remaining cursor is the input with one line dropped per
pattern; if the input runs out first it fails with a scan error naming the
next expected pattern (a constructor distinct from a mismatch) and carrying
the scanner's underlying error; if a line fails its pattern while all earlier
lines matched, it fails with a mismatch reporting that pattern and the actual
line content. -/
theorem checkLines_contract (ps : List LinePattern) (lines : List String)
    (re : Option String) :
    (∀ rest, checkLines ps lines re = .ok rest →
      rest = lines.drop ps.length ∧ ps.length ≤ lines.length) ∧
    (∀ (h : lines.length < ps.length),
      (∀ i (hi : i < lines.length),
        (ps.get ⟨i, Nat.lt_trans hi h⟩).accepts (lines.get ⟨i, hi⟩) = true) →
      checkLines ps lines re =
        .error (.scanError (ps.get ⟨lines.length, h⟩).descr re)) ∧
    (∀ (i : Nat) (hp : i < ps.length) (hl : i < lines.length),
      (∀ j (hj : j < i),
        (ps.get ⟨j, Nat.lt_trans hj hp⟩).accepts
          (lines.get ⟨j, Nat.lt_trans hj hl⟩) = true) →
      (ps.get ⟨i, hp⟩).accepts (lines.get ⟨i, hl⟩) = false →
      checkLines ps lines re =
        .error (.mismatch (ps.get ⟨i, hp⟩).descr (lines.get ⟨i, hl⟩))) :=
  ⟨fun rest h => ⟨(checkLines_ok ps lines re rest h).1, (checkLines_ok ps lines re rest h).2.1⟩,
   checkLines_exhausted ps lines re,
   checkLines_mismatch ps lines re⟩

theorem checkLines_contract_witness :
    ([goodDataLine] : List String) =
        (goodHeaderLines ++ [goodDataLine]).drop metarHeaders.length ∧
      metarHeaders.length ≤ (goodHeaderLines ++ [goodDataLine]).length :=
  (checkLines_contract metarHeaders (goodHeaderLines ++ [goodDataLine]) none).1
    [goodDataLine] (by decide)

/-- Claim C6 counterexample: the time field "2024-01-01T00:00:00+24:00" is
not a valid RFC 3339 timestamp (the offset hour exceeds 23), yet the
program's layout parser accepts it — the record is not rejected, the
transaction commits, and the row is stored, refuting the claim that every
record with an invalid RFC 3339 time field is rejected and aborts the
transaction. -/
theorem rfc3339_offset_accepted_cex :
    strictRFC3339 "2024-01-01T00:00:00+24:00" = false ∧
    parseRFC3339 "2024-01-01T00:00:00+24:00" = some tsOffset ∧
    fileToDB envOK [] (some fOffset) = ([rowOffset], .ok) := by
  refine ⟨by decide, by decide, by decide⟩

/-- Claim C6 amended: a data line whose third field (index 2) cannot be
parsed by the code's RFC 3339 layout parse — which is laxer than strict
RFC 3339, also admitting single-digit hours, comma fractional separators and
out-of-range numeric zone offsets — is rejected with an error carrying the
offending raw field value, and — once headers have passed — the surrounding
file transaction aborts, leaving the store unchanged. -/
theorem bad_timestamp_rejected (env : DBEnv) (db : Store) (f : FileContent)
    (rest : List String) (l : String) (parts : List String)
    (h2 : 2 < parts.length)
    (hh : checkLines metarHeaders f.lines f.readErr = Except.ok rest)
    (hl : l ∈ rest) (hp : parseCSVLine l = .ok parts)
    (ht : parseRFC3339 (parts.get ⟨2, h2⟩) = none) :
    lineRow env l = .err (.badTime (parts.get ⟨2, h2⟩)) ∧
    (fileToDB env db (some f)).1 = db ∧ (fileToDB env db (some f)).2 ≠ .ok := by
  have hlr : lineRow env l = .err (.badTime (parts.get ⟨2, h2⟩)) := by
    simp only [lineRow, hp]
    rw [dif_pos (show 3 ≤ parts.length from h2)]
    simp only [ht]
  exact ⟨hlr, fileToDB_rollback env db f rest hh (Or.inl ⟨l, hl, _, hlr⟩)⟩

theorem bad_timestamp_rejected_witness :
    lineRow envOK "raw,KSEA,2024-13-40" = .err (.badTime "2024-13-40") ∧
    (fileToDB envOK [] (some fBad)).1 = [] ∧ (fileToDB envOK [] (some fBad)).2 ≠ .ok :=
  bad_timestamp_rejected envOK [] fBad ["raw,KSEA,2024-13-40"] "raw,KSEA,2024-13-40"
    ["raw", "KSEA", "2024-13-40"] (by decide) (by decide) (by decide) (by decide) (by decide)

/-- Claim C7: the driver's sequencing — in download mode a failed fetch fails
the whole run with the store untouched (no ingestion attempted); in download
mode a successful ingestion deletes the local file, and a deletion failure is
reported as a run failure (with the data already stored); a failed ingestion
leaves the local file in place in both modes; with download mode off the
local file is never deleted. -/
theorem run_driver_contract (env : RunEnv) (w : World) :
    (∀ f' e, downloadFile env.fetch w.file = (f', some e) →
      run true env w = ({ w with file := f' }, .err (.downloadError e))) ∧
    (∀ f' db', downloadFile env.fetch w.file = (f', none) →
      env.connectFails = false →
      fileToDB ⟨env.execFails⟩ w.store f' = (db', .ok) →
      run true env w =
        (if env.removeFails then ({ file := f', store := db' }, .err .removeError)
         else ({ file := none, store := db' }, .ok))) ∧
    (∀ f' e db0, downloadFile env.fetch w.file = (f', none) →
      env.connectFails = false →
      fileToDB ⟨env.execFails⟩ w.store f' = (db0, .err e) →
      run true env w = ({ w with file := f' }, .err (.storeError e))) ∧
    (∀ e db0, env.connectFails = false →
      fileToDB ⟨env.execFails⟩ w.store w.file = (db0, .err e) →
      run false env w = (w, .err (.storeError e))) ∧
    (run false env w).1.file = w.file := by
  refine ⟨?_, ?_, ?_, ?_, ?_⟩
  · intro f' e hd
    simp [run, hd]
  · intro f' db' hd hc hf
    simp [run, runIngest, hd, hc, hf]
  · intro f' e db0 hd hc hf
    simp [run, runIngest, hd, hc, hf]
  · intro e db0 hc hf
    simp [run, runIngest, hc, hf]
  · simp only [run, Bool.false_eq_true, if_false, runIngest]
    cases hc : env.connectFails with
    | true => simp
    | false =>
      simp only [Bool.false_eq_true, if_false]
      cases hf : fileToDB ⟨env.execFails⟩ w.store w.file with
      | mk st out => cases out <;> simp

theorem run_driver_contract_witness :
    run true envRun ⟨none, []⟩ = (⟨none, storeGood⟩, .ok) :=
  (run_driver_contract envRun ⟨none, []⟩).2.1 (some fGood) storeGood (by decide) rfl (by decide)

/-- Claim C8: the fetcher fails reporting the observed status code when the
HTTP status is not 200; fails with a gzip error when the body is not valid
gzip; fails without overwriting when the destination file already exists; and
an interrupted copy fails leaving the partial file on disk with no cleanup. -/
theorem downloadFile_contract (env : FetchEnv) (file : Option FileContent)
    (resp : HttpResponse) (hr : env.httpResult = .ok resp) :
    (resp.statusCode ≠ 200 →
      downloadFile env file = (file, some (.badStatus resp.statusCode))) ∧
    (resp.statusCode = 200 → resp.bodyIsGzip = false →
      downloadFile env file = (file, some .gzipError)) ∧
    (∀ f, resp.statusCode = 200 → resp.bodyIsGzip = true → file = some f →
      downloadFile env file = (some f, some .createError)) ∧
    (resp.statusCode = 200 → resp.bodyIsGzip = true → file = none →
      resp.copyInterrupted = true →
      downloadFile env file = (some resp.partialContent, some .copyError)) := by
  refine ⟨?_, ?_, ?_, ?_⟩
  · intro hs
    simp [downloadFile, hr, hs]
  · intro hs hg
    simp [downloadFile, hr, hs, hg]
  · intro f hs hg hf
    subst hf
    simp [downloadFile, hr, hs, hg]
  · intro hs hg hf hcopy
    subst hf
    simp [downloadFile, hr, hs, hg, hcopy]

theorem downloadFile_contract_witness :
    downloadFile env404 none = (none, some (.badStatus 404)) :=
  (downloadFile_contract env404 none resp404 rfl).1 (by decide)

/-- Claim C9 counterexample: a CSV line whose second field is empty is
accepted and written — `writeLine` succeeds and stores a row whose station
is the empty string, contradicting the claim that every record passed to the
writer has a non-empty station. -/
theorem station_empty_accepted_cex :
    parseCSVLine "x,,2024-01-01T00:00:00Z" = .ok ["x", "", "2024-01-01T00:00:00Z"] ∧
    writeLine envOK [] "x,,2024-01-01T00:00:00Z" =
      .ok [⟨"", tsKSEA, ["x", "", "2024-01-01T00:00:00Z"]⟩] := by
  constructor
  · decide
  · decide

/-- Claim C9 amended: the station written for an accepted data line is
exactly the parsed record's field at index 1, whatever string that is — no
non-emptiness check is performed. -/
theorem station_extracted_field1 (env : DBEnv) (text : String) (parts : List String)
    (r : Row) (hp : parseCSVLine text = .ok parts) (hr : lineRow env text = .row r) :
    ∃ h1 : 1 < parts.length, r.station = parts.get ⟨1, h1⟩ := by
  simp only [lineRow, hp] at hr
  by_cases h3 : 3 ≤ parts.length
  · rw [dif_pos h3] at hr
    refine ⟨by omega, ?_⟩
    split at hr
    · cases hr
    · split at hr
      · cases hr
      · injection hr with hr
        rw [← hr]
  · rw [dif_neg h3] at hr
    cases hr

theorem station_extracted_field1_witness :
    ∃ h1 : 1 < (["x", "", "2024-01-01T00:00:00Z"] : List String).length,
      Row.station ⟨"", tsKSEA, ["x", "", "2024-01-01T00:00:00Z"]⟩ =
        (["x", "", "2024-01-01T00:00:00Z"] : List String).get ⟨1, h1⟩ :=
  station_extracted_field1 envOK "x,,2024-01-01T00:00:00Z"
    ["x", "", "2024-01-01T00:00:00Z"] ⟨"", tsKSEA, ["x", "", "2024-01-01T00:00:00Z"]⟩
    (by decide) (by decide)

/-- Claim C10: a data line that parses as valid CSV but yields fewer than
three fields makes the write path read `parts` out of bounds — `writeLine`
panics (no length check guards the accesses at indices 1 and 2), rather than
returning an error. -/
theorem writeLine_short_record_panics (env : DBEnv) (tx : Store) (text : String)
    (parts : List String) (hp : parseCSVLine text = .ok parts)
    (hlen : parts.length < 3) :
    writeLine env tx text = .panic := by
  have hlr : lineRow env text = .panic := by
    simp only [lineRow, hp]
    rw [dif_neg (by omega)]
  simp only [writeLine, hlr]

theorem writeLine_short_record_panics_witness :
    writeLine envOK [] "a,b" = .panic :=
  writeLine_short_record_panics envOK [] "a,b" ["a", "b"] (by decide) (by decide)
